import Mathlib

/-!
Verification development for the subcleaner document core
(source file: libs/subcleaner/subtitle.py).

The Python source is shallowly embedded below.  Pure string manipulation is
modelled on explicit character lists so that every definition is executable
and reduces inside the kernel.  External collaborators that are not part of
the source tree under verification (the block parser in sub_block.py, the
language registry, the statistical detector, pathlib) are modelled from the
specification and are marked as such in their doc comments.
-/

namespace Subcleaner

/-! ### Character level utilities -/

/-- Whitespace characters matched by the regex class in the normalization
step (ASCII subset of the whitespace class). -/
def isWs (c : Char) : Bool :=
  c = ' ' || c = '\t' || c = '\n' || c = '\r' || c = '\x0b' || c = '\x0c'

/-- Greedy matcher for the tail of the normalization pattern: consumes a
run of whitespace that ends with a newline, preferring the longest match,
exactly as the backtracking regex engine does for the middle and final
parts of the blank-line pattern.  Returns the remaining characters after
the consumed run, or none when no such run starts here. -/
def tryMatchWsNl : List Char → Option (List Char)
  | [] => none
  | c :: cs =>
    if isWs c then
      match tryMatchWsNl cs with
      | some r => some r
      | none => if c = '\n' then some cs else none
    else none

/-- One pass of the blank-line collapsing substitution, written with a
structural fuel parameter so that it evaluates inside the kernel; every
step consumes at least one character, so fuel equal to the input length is
always sufficient and the fuel-exhausted branch is unreachable from the
wrapper below. -/
def normCharsGo : Nat → List Char → List Char
  | 0, l => l
  | fuel + 1, l =>
    match l with
    | [] => []
    | c :: cs =>
      if c = '\n' then
        match tryMatchWsNl cs with
        | some r => '\n' :: normCharsGo fuel r
        | none => '\n' :: normCharsGo fuel cs
      else c :: normCharsGo fuel cs

/-- The blank-line collapsing substitution: every occurrence of a newline,
a whitespace run and a further newline is replaced by a single newline,
scanning left to right and resuming after each replacement. -/
def normChars (l : List Char) : List Char := normCharsGo l.length l

/-- Replacement of the em dash character by a double hyphen, the second
normalization step. -/
def replaceEmDash : List Char → List Char
  | [] => []
  | c :: cs => if c = '—' then '-' :: '-' :: replaceEmDash cs else c :: replaceEmDash cs

/-- Splitting on a single separator character with the same semantics as
the Python split method: the result always has one more part than there
are separators, and empty parts are kept. -/
def splitCh (sep : Char) : List Char → List (List Char)
  | [] => [[]]
  | c :: cs =>
    if c = sep then [] :: splitCh sep cs
    else
      match splitCh sep cs with
      | [] => [[c]]
      | h :: t => (c :: h) :: t

/-- Decide whether the pattern list is a prefix of the other list. -/
def listStartsWith : List Char → List Char → Bool
  | [], _ => true
  | _ :: _, [] => false
  | p :: ps, c :: cs => p = c && listStartsWith ps cs

/-- Decide whether the pattern occurs as a contiguous subsequence, the
semantics of the Python substring containment test. -/
def containsSeq (pat : List Char) : List Char → Bool
  | [] => listStartsWith pat []
  | c :: cs => listStartsWith pat (c :: cs) || containsSeq pat cs

/-- Strip whitespace from both ends, the semantics of the strip method. -/
def trimChars (l : List Char) : List Char :=
  ((l.dropWhile isWs).reverse.dropWhile isWs).reverse

/-! ### String level wrappers -/

/-- Both normalization steps of the parse entry point, in source order:
the blank-line collapsing substitution followed by the em dash
replacement. -/
def normalizeContent (s : String) : String :=
  String.mk (replaceEmDash (normChars s.data))

/-- Split a string into its newline separated lines. -/
def splitLinesStr (s : String) : List String :=
  (splitCh '\n' s.data).map String.mk

/-- Join a list of lines with newline separators. -/
def joinNl : List String → String
  | [] => ""
  | [s] => s
  | s :: rest => s ++ "\n" ++ joinNl rest

def trimStr (s : String) : String := String.mk (trimChars s.data)

/-- The arrow marker whose presence on a line marks a time line. -/
def hasArrowStr (s : String) : Bool := containsSeq ['-', '-', '>'] s.data

/-- The all-digits test used on the line above a time line (ASCII digit
subset of the Python numeric test). -/
def isnumericStr (s : String) : Bool := !s.data.isEmpty && s.data.all (fun c => c.isDigit)

/-- Value of a digit string, used for the sequence number carried by a
parsed block. -/
def natOfDigits (l : List Char) : Nat := l.foldl (fun n c => n * 10 + (c.toNat - 48)) 0

/-! ### The block model -/

/-- Modelled from the spec: the structured block type produced by the
external block parser (sub_block.py, which is not under src).  A block
carries its raw text split into the sequence number, the time line and the
trimmed text content, together with the mutable display index and the
classification score written by the external classifier or by the forced
deletion override (score field regex_matches, sentinel value 3). -/
structure SubBlock where
  current_index : Nat
  times : String
  content : String
  regex_matches : Int
deriving DecidableEq, Inhabited

/-- Modelled from the spec: the external block constructor receives the
raw multi-line cue text; the first line is the sequence number, the second
the time line, the remaining lines are the text whose trimmed
concatenation is the content.  Parse failures of the external parser are
not modelled. -/
def mkSubBlock (raw : String) : SubBlock :=
  let lines := splitLinesStr raw
  { current_index := natOfDigits (lines.headD "").data
    times := lines.getD 1 ""
    content := trimStr (joinNl (lines.drop 2))
    regex_matches := 0 }

/-- Modelled from the spec: the string representation of a block (external
to src), the time line followed by the text content. -/
def blockStrRep (b : SubBlock) : String := b.times ++ "\n" ++ b.content

/-! ### Segmentation -/

/-- The scanning loop of the block breakup method, translated with its
explicit indices: lastBreak is the previous boundary position, i the scan
position starting at 2, acc the blocks emitted so far.  A boundary at i
requires the arrow marker on line i and an all-digits line at i-1; it
emits the lines from lastBreak up to but excluding i-1 as one block,
keeping it only when its content is nonempty. -/
def breakupGo (raw : List String) : Nat → Nat → Nat → List SubBlock → List SubBlock
  | 0, _, _, acc => acc
  | fuel + 1, lastBreak, i, acc =>
    if i < raw.length then
      if hasArrowStr (raw.getD i "") && isnumericStr (raw.getD (i - 1) "") then
        let block := mkSubBlock (joinNl ((raw.drop lastBreak).take (i - 1 - lastBreak)))
        breakupGo raw fuel (i - 1) (i + 1) (if block.content ≠ "" then acc ++ [block] else acc)
      else breakupGo raw fuel lastBreak (i + 1) acc
    else acc

/-- The block breakup method over a list of raw lines.  The scan position
advances by one per iteration, so fuel equal to the line count is always
sufficient for the scan that starts at position 2. -/
def breakup_block (raw : List String) : List SubBlock := breakupGo raw raw.length 0 2 []

/-- Structural reformulation of the same scan used for the proofs: buf
holds the lines since the last boundary up to two positions before the
scan point, prev is the line just before the scan point. -/
def breakupScan : List String → String → List String → List SubBlock
  | _, _, [] => []
  | buf, prev, cur :: rest =>
    if hasArrowStr cur && isnumericStr prev then
      let block := mkSubBlock (joinNl buf)
      if block.content ≠ "" then block :: breakupScan [prev] cur rest
      else breakupScan [prev] cur rest
    else breakupScan (buf ++ [prev]) cur rest

/-- The full parse of raw file text: normalization, line split, breakup. -/
def parse_file_content (c : String) : List SubBlock :=
  breakup_block (splitLinesStr (normalizeContent c))

/-! ### The document model -/

/-- The document: ordered block sequence plus the two mark sets.  Set
membership in the source is object identity of blocks; per the design
notes of the spec it is modelled as a set of stable block identities over
the owned sequence, so the two mark sets are sets of naturals. -/
structure Subtitle where
  file : String
  blocks : List SubBlock
  ad_blocks : Finset Nat
  warning_blocks : Finset Nat
  language : String
  short_path : String
deriving DecidableEq, Inhabited

/-- Add the block to the warning set unless it is already confirmed as an
advertisement. -/
def Subtitle.warn (s : Subtitle) (b : Nat) : Subtitle :=
  if b ∈ s.ad_blocks then s
  else { s with warning_blocks := insert b s.warning_blocks }

/-- Remove the block from the warning set when present, then add it to the
ad set. -/
def Subtitle.ad (s : Subtitle) (b : Nat) : Subtitle :=
  { s with warning_blocks := s.warning_blocks.erase b
           ad_blocks := insert b s.ad_blocks }

/-- Set the classification score of the block at the given position to the
sentinel. -/
def setScoreAt : List SubBlock → Nat → List SubBlock
  | [], _ => []
  | b :: bs, 0 => { b with regex_matches := 3 } :: bs
  | b :: bs, n + 1 => b :: setScoreAt bs n

/-- Errors surfaced by document construction: the content-empty exception
raised when no block has usable text, and the index error raised by a
negative effective position in the forced-deletion loop. -/
inductive SubtitleException where
  | contentError (file : String)
  | indexError
deriving DecidableEq

/-- The forced-deletion loop: positions whose zero-based index reaches at
least the block count are skipped; otherwise the block at that index gets
the sentinel score.  A negative zero-based index follows the list indexing
of the host language: it counts from the end, and raises an index error
when it is still negative after adding the length. -/
def mark_blocks_for_deletion (s : Subtitle) : List Int → Except SubtitleException Subtitle
  | [] => .ok s
  | index :: rest =>
    if (s.blocks.length : Int) ≤ index - 1 then
      mark_blocks_for_deletion s rest
    else if 0 ≤ index - 1 then
      mark_blocks_for_deletion { s with blocks := setScoreAt s.blocks (index - 1).toNat } rest
    else if 0 ≤ index - 1 + (s.blocks.length : Int) then
      mark_blocks_for_deletion
        { s with blocks := setScoreAt s.blocks (index - 1 + (s.blocks.length : Int)).toNat } rest
    else .error .indexError

/-- Concatenation of all block contents, used by both language routines. -/
def concatContent (s : Subtitle) : String :=
  s.blocks.foldl (fun c b => c ++ b.content) ""

/-- The boolean conversion of a document: true when some block has
nonempty content. -/
def subtitleBool (s : Subtitle) : Bool :=
  s.blocks.any (fun b => b.content ≠ "")

/-- Walk the block sequence assigning sequential display indices starting
from the given value. -/
def reindexFrom : Nat → List SubBlock → List SubBlock
  | _, [] => []
  | i, b :: bs => { b with current_index := i } :: reindexFrom (i + 1) bs

/-- Reindex the document: sequential one-based display indices in the
current block order. -/
def Subtitle.reindex (s : Subtitle) : Subtitle :=
  { s with blocks := reindexFrom 1 s.blocks }

/-- Drop the final character, the slice taken from the rendered text. -/
def dropLastChar (s : String) : String := String.mk s.data.dropLast

/-- Render the document: for each block its current index, a newline, its
string representation and a blank line, with the final newline trimmed. -/
def Subtitle.to_content (s : Subtitle) : String :=
  dropLastChar
    (s.blocks.foldl
      (fun content b =>
        content ++ toString b.current_index ++ "\n" ++ blockStrRep b ++ "\n" ++ "\n")
      "")

/-! ### External collaborators of the language routines -/

/-- Modelled from the spec: one ranked guess of the statistical language
detector, a language code with a confidence probability (modelled as a
rational number). -/
structure DetectedLanguage where
  lang : String
  prob : ℚ

/-- Modelled from the spec: the external collaborators of the language
routines, none of which are under src.  The language registry (module
languages) answers membership and the mapping to two-letter codes; the
statistical detector (langdetect) returns ranked guesses, of which only
the top guess is consumed, so only it is modelled; detector-level failures
are outside the core. -/
structure Env where
  is_language : String → Bool
  get_2letter_code : String → Option String
  detect_top : String → DetectedLanguage

/-- Modelled from the spec: the configuration consumed by construction, a
default language (absent models the falsy empty setting) and the base path
for the display path. -/
structure Config where
  default_language : Option String
  relative_base : String

/-- Modelled from the spec: the external arguments consumed by
construction, an explicit language override and an optional forced
deletion list (absent models the falsy values). -/
structure Args where
  language : Option String
  destroy_list : Option (List Int)

/-! ### Path suffix handling -/

/-- Modelled from the spec: the final path component, as the name property
of the external path library. -/
def pathName (file : String) : String :=
  String.mk ((splitCh '/' file.data).getLastD [])

/-- Modelled from the spec: the suffixes property of the external path
library: no suffixes when the name ends with a dot, otherwise every dot
separated part of the name after the first, once leading dots are
stripped, each with its dot restored. -/
def pathSuffixes (file : String) : List String :=
  let name := (pathName file).data
  match name.getLast? with
  | some '.' => []
  | _ =>
    ((splitCh '.' (name.dropWhile (fun c => c = '.'))).map String.mk).tail.map
      (fun s => "." ++ s)

/-- The slice of the suffix list inspected by language determination: up
to the two components preceding the final suffix. -/
def suffixWindow (l : List String) : List String :=
  (l.take (l.length - 1)).drop (l.length - 3)

/-- The token tested against the registry for one suffix: colons and
underscores become hyphens, the part before the first hyphen is taken and
its leading character (the dot) is dropped. -/
def parseSuffixLang (sfx : String) : String :=
  String.mk
    ((((splitCh '-' (sfx.data.map (fun c => if c = ':' || c = '_' then '-' else c))).headD []).drop 1))

/-- The suffix loop of language determination: the first suffix whose
token the registry recognizes yields that token. -/
def findLangTag (isl : String → Bool) : List String → Option String
  | [] => none
  | sfx :: rest =>
    let parsed_lang := parseSuffixLang sfx
    if isl parsed_lang then some parsed_lang else findLangTag isl rest

/-! ### The language routines -/

/-- Language determination: the configured default wins when present;
otherwise the first recognized filename suffix token; otherwise unknown
when the concatenated content is shorter than 500 characters; otherwise
the top detector guess when its probability exceeds 0.9, else unknown.
The source assigns the unknown tag before the suffix loop and overwrites
it on success; only the resulting state is modelled. -/
def determine_language (env : Env) (cfg : Config) (s : Subtitle) : Subtitle :=
  match cfg.default_language with
  | some d => { s with language := d }
  | none =>
    match findLangTag env.is_language (suffixWindow (pathSuffixes s.file)) with
    | some tag => { s with language := tag }
    | none =>
      let sub_content := concatContent s
      if sub_content.length < 500 then { s with language := "und" }
      else
        let detected := env.detect_top sub_content
        if 9 / 10 < detected.prob then { s with language := detected.lang }
        else { s with language := "und" }

/-- Language validation.  The source reads but never assigns the stored
language tag, so the routine is a pure predicate here. -/
def language_is_correct (env : Env) (s : Subtitle) : Bool :=
  if s.language = "und" then true
  else
    match env.get_2letter_code s.language with
    | none => true
    | some language_code_2 =>
      let sub_content := concatContent s
      if sub_content.length < 500 then true
      else
        let detected := env.detect_top sub_content
        (detected.lang == language_code_2) && decide ((8 : ℚ) / 10 < detected.prob)

/-! ### Construction -/

/-- Modelled from the spec: the display path, the path relative to the
configured base with the path itself as fallback (the relative_to call of
the external path library, modelled as prefix stripping). -/
def shortPath (base file : String) : String :=
  if listStartsWith (base.data ++ ['/']) file.data then
    String.mk (file.data.drop (base.data.length + 1))
  else file

/-- Document construction from already-read file text, in source order:
parse the content into blocks, compute the display path, fail with the
content-empty exception when no block has text, resolve the language (the
explicit override verbatim when supplied, otherwise determination), run
validation whose result is only logged, then apply the forced-deletion
list when supplied.  The file read and its encoding fallback are outside
this model. -/
def mkSubtitle (env : Env) (cfg : Config) (args : Args) (file : String)
    (file_content : String) : Except SubtitleException Subtitle :=
  let s0 : Subtitle :=
    { file := file
      blocks := parse_file_content file_content
      ad_blocks := ∅
      warning_blocks := ∅
      language := ""
      short_path := shortPath cfg.relative_base file }
  if subtitleBool s0 then
    let s1 :=
      match args.language with
      | some l => { s0 with language := l }
      | none => determine_language env cfg s0
    match args.destroy_list with
    | some destroy_list => mark_blocks_for_deletion s1 destroy_list
    | none => .ok s1
  else .error (.contentError file)

/-! ### The cue model used by the segmentation theorems -/

/-- One cue of the input format: a sequence number line, a time line, and
text lines. -/
structure Cue where
  num : String
  time : String
  texts : List String

/-- The lines one cue contributes to the file. -/
def cueLines (c : Cue) : List String := c.num :: c.time :: c.texts

/-- The line list of a file made of cues, each followed immediately by the
next, with nothing after the final line of the last cue. -/
def flattenCues : List Cue → List String
  | [] => []
  | c :: cs => cueLines c ++ flattenCues cs

/-- The block built from the lines of one cue. -/
def cueBlock (c : Cue) : SubBlock := mkSubBlock (joinNl (cueLines c))

/-- Well-formedness of one cue: the sequence number line is all digits and
free of the arrow marker, the time line carries the arrow marker, no text
line carries it, and the block built from the cue has nonempty content. -/
def WFCue (c : Cue) : Prop :=
  isnumericStr c.num = true ∧ hasArrowStr c.num = false ∧ hasArrowStr c.time = true ∧
    (∀ t ∈ c.texts, hasArrowStr t = false) ∧ (cueBlock c).content ≠ ""

instance (c : Cue) : Decidable (WFCue c) := by unfold WFCue; infer_instance

/-- The reference trace of the scan over a cue list: one block is emitted
per remaining cue, built each time from the lines gathered since the last
boundary, so the block for the final cue is never produced. -/
def scanBlocks : List String → List Cue → List SubBlock
  | _, [] => []
  | prevLines, c :: cs =>
    if (mkSubBlock (joinNl prevLines)).content ≠ "" then
      mkSubBlock (joinNl prevLines) :: scanBlocks (cueLines c) cs
    else scanBlocks (cueLines c) cs

theorem getD_append_cons (pre : List String) (x : String) (post : List String) :
    (pre ++ x :: post).getD pre.length "" = x := by
  induction pre with
  | nil => rfl
  | cons p ps ih => simpa using ih

/-- The indexed scanning loop agrees with its structural reformulation
whenever the indices describe the decomposition of the line list into the
already-scanned part, the buffer since the last boundary, the previous
line and the remaining lines, and the fuel covers the remaining lines. -/
theorem breakupGo_eq_scan :
    ∀ (rest : List String) (fuel : Nat) (pre buf : List String) (prev : String)
      (acc : List SubBlock), rest.length < fuel →
      breakupGo (pre ++ buf ++ prev :: rest) fuel pre.length (pre.length + buf.length + 1) acc
        = acc ++ breakupScan buf prev rest := by
  intro rest
  induction rest with
  | nil =>
    intro fuel pre buf prev acc hf
    cases fuel with
    | zero => omega
    | succ f =>
      simp only [breakupGo]
      rw [if_neg (by simp only [List.length_append, List.length_cons, List.length_nil]; omega)]
      simp [breakupScan]
  | cons cur rest ih =>
    intro fuel pre buf prev acc hf
    cases fuel with
    | zero => simp at hf
    | succ f =>
      have hf2 : rest.length < f := by
        simp only [List.length_cons] at hf
        omega
      have e2 : pre ++ buf ++ prev :: cur :: rest = (pre ++ (buf ++ [prev])) ++ cur :: rest := by
        simp
      have e3 : pre ++ buf ++ prev :: cur :: rest = (pre ++ buf) ++ prev :: (cur :: rest) := by
        simp
      have hgetcur :
          (pre ++ buf ++ prev :: cur :: rest).getD (pre.length + buf.length + 1) "" = cur := by
        rw [e2, show pre.length + buf.length + 1 = (pre ++ (buf ++ [prev])).length by
          simp only [List.length_append, List.length_cons, List.length_nil]; omega]
        exact getD_append_cons _ _ _
      have hgetprev :
          (pre ++ buf ++ prev :: cur :: rest).getD (pre.length + buf.length + 1 - 1) "" = prev := by
        rw [e3, show pre.length + buf.length + 1 - 1 = (pre ++ buf).length by
          simp only [List.length_append]; omega]
        exact getD_append_cons _ _ _
      have hslice :
          (((pre ++ buf ++ prev :: cur :: rest).drop pre.length).take
            (pre.length + buf.length + 1 - 1 - pre.length)) = buf := by
        rw [show pre ++ buf ++ prev :: cur :: rest = pre ++ (buf ++ prev :: cur :: rest) by simp,
          List.drop_left,
          show pre.length + buf.length + 1 - 1 - pre.length = buf.length by omega]
        exact List.take_left _ _
      have hlt : pre.length + buf.length + 1 < (pre ++ buf ++ prev :: cur :: rest).length := by
        simp only [List.length_append, List.length_cons]
        omega
      simp only [breakupGo, breakupScan]
      rw [if_pos hlt, hgetcur, hgetprev, hslice]
      by_cases hb : (hasArrowStr cur && isnumericStr prev) = true
      · rw [if_pos hb, if_pos hb]
        by_cases hcont : (mkSubBlock (joinNl buf)).content = ""
        · rw [if_neg (not_not_intro hcont), if_neg (not_not_intro hcont)]
          have happ := ih f (pre ++ buf) [prev] cur acc hf2
          simpa [List.append_assoc] using happ
        · rw [if_pos hcont, if_pos hcont]
          have happ := ih f (pre ++ buf) [prev] cur (acc ++ [mkSubBlock (joinNl buf)]) hf2
          simpa [List.append_assoc] using happ
      · rw [if_neg hb, if_neg hb]
        have happ := ih f pre (buf ++ [prev]) cur acc hf2
        simpa [List.append_assoc] using happ

/-- The breakup over a line list with at least two lines is the structural
scan started with the first line buffered and the second line previous. -/
theorem breakup_block_eq_scan (a b : String) (rest : List String) :
    breakup_block (a :: b :: rest) = breakupScan [a] b rest := by
  have h := breakupGo_eq_scan rest (a :: b :: rest).length [] [a] b []
    (by simp only [List.length_cons]; omega)
  simpa using h

/-- Fewer than three lines make the scan range empty: no block at all. -/
theorem breakup_block_short (raw : List String) (h : raw.length < 3) :
    breakup_block raw = [] := by
  match raw, h with
  | [], _ => rfl
  | [a], _ => rfl
  | [a, b], _ => rfl
  | a :: b :: c :: t, h => simp only [List.length_cons] at h; omega

/-- Scanning lines free of the arrow marker never emits a block. -/
theorem breakupScan_no_arrow :
    ∀ (txts buf : List String) (prev : String),
      (∀ x ∈ txts, hasArrowStr x = false) → breakupScan buf prev txts = [] := by
  intro txts
  induction txts with
  | nil => intro buf prev _; rfl
  | cons x xs ih =>
    intro buf prev h
    have hx : hasArrowStr x = false := h x (List.mem_cons_self _ _)
    simp only [breakupScan]
    rw [if_neg (by simp [hx])]
    exact ih (buf ++ [prev]) x (fun y hy => h y (List.mem_cons_of_mem _ hy))

/-- The structural scan over buffered lines followed by pending text lines
and then whole cues produces exactly the reference trace. -/
theorem breakupScan_flatten :
    ∀ (cs : List Cue) (txts buf : List String) (prev : String),
      (∀ x ∈ txts, hasArrowStr x = false) → (∀ c ∈ cs, WFCue c) →
      breakupScan buf prev (txts ++ flattenCues cs) = scanBlocks (buf ++ prev :: txts) cs := by
  intro cs
  induction cs with
  | nil =>
    intro txts buf prev h1 _
    rw [flattenCues, List.append_nil, breakupScan_no_arrow txts buf prev h1]
    rfl
  | cons c cs ih =>
    intro txts
    induction txts with
    | nil =>
      intro buf prev _ h2
      obtain ⟨hnum, hnumarr, htimearr, htextarr, _⟩ := h2 c (List.mem_cons_self c cs)
      have hcs : ∀ c2 ∈ cs, WFCue c2 := fun c2 h => h2 c2 (List.mem_cons_of_mem _ h)
      rw [List.nil_append]
      show breakupScan buf prev (c.num :: c.time :: (c.texts ++ flattenCues cs)) = _
      simp only [breakupScan]
      rw [if_neg (by simp [hnumarr]), if_pos (by simp [htimearr, hnum])]
      rw [ih c.texts [c.num] c.time htextarr hcs]
      show _ = scanBlocks (buf ++ [prev]) (c :: cs)
      simp only [scanBlocks]
      rfl
    | cons x xs ihx =>
      intro buf prev h1 h2
      have hx : hasArrowStr x = false := h1 x (List.mem_cons_self _ _)
      have hxs : ∀ y ∈ xs, hasArrowStr y = false := fun y hy => h1 y (List.mem_cons_of_mem _ hy)
      rw [List.cons_append]
      simp only [breakupScan]
      rw [if_neg (by simp [hx])]
      rw [ihx (buf ++ [prev]) x hxs h2]
      rw [List.append_assoc]
      rfl

/-- The reference trace is the map of the block builder over all the cue
line lists except the last, once every emitted block has content. -/
theorem scanBlocks_eq_map :
    ∀ (cs : List Cue) (pl : List String),
      (mkSubBlock (joinNl pl)).content ≠ "" → (∀ c ∈ cs, WFCue c) →
      scanBlocks pl cs
        = ((pl :: cs.map cueLines).dropLast).map (fun ls => mkSubBlock (joinNl ls)) := by
  intro cs
  induction cs with
  | nil => intro pl _ _; rfl
  | cons c cs ih =>
    intro pl h1 h2
    have hc : WFCue c := h2 c (List.mem_cons_self c cs)
    have hcs : ∀ c2 ∈ cs, WFCue c2 := fun c2 h => h2 c2 (List.mem_cons_of_mem _ h)
    simp only [scanBlocks]
    rw [if_pos h1, ih (cueLines c) hc.2.2.2.2 hcs]
    rfl

/-- C1.  For every cue file whose text contains N cues each followed
immediately by the next cue, with no trailing content after the final
line of the last cue, the breakup over the normalized lines produces
exactly the blocks of the first N-1 cues, hence N-1 blocks: the final
cue, which no subsequent boundary line follows, is never emitted. -/
theorem C1_segmentation_drops_final_cue (cues : List Cue) (h : ∀ c ∈ cues, WFCue c) :
    breakup_block (flattenCues cues) = cues.dropLast.map cueBlock ∧
    (breakup_block (flattenCues cues)).length = cues.length - 1 := by
  have hmain : breakup_block (flattenCues cues) = cues.dropLast.map cueBlock := by
    cases cues with
    | nil => rfl
    | cons c cs =>
      obtain ⟨hnum, hnumarr, htimearr, htextarr, hcontent⟩ := h c (List.mem_cons_self c cs)
      have hcs : ∀ c2 ∈ cs, WFCue c2 := fun c2 hh => h c2 (List.mem_cons_of_mem _ hh)
      show breakup_block (c.num :: c.time :: (c.texts ++ flattenCues cs)) = _
      rw [breakup_block_eq_scan, breakupScan_flatten cs c.texts [c.num] c.time htextarr hcs]
      show scanBlocks (cueLines c) cs = _
      rw [scanBlocks_eq_map cs (cueLines c) hcontent hcs]
      show (((c :: cs).map cueLines).dropLast).map (fun ls => mkSubBlock (joinNl ls)) = _
      rw [← List.map_dropLast, List.map_map]
      rfl
  refine ⟨hmain, ?_⟩
  rw [hmain]
  simp [List.length_dropLast]

def cueA : Cue := { num := "1", time := "00:00:01,000 --> 00:00:02,000", texts := ["Hello world"] }

def cueB : Cue := { num := "2", time := "00:00:03,000 --> 00:00:04,000", texts := ["Goodbye"] }

/-- Witness for C1 at a concrete two-cue file. -/
theorem C1_segmentation_drops_final_cue_witness :
    breakup_block (flattenCues [cueA, cueB]) = [cueA, cueB].dropLast.map cueBlock ∧
    (breakup_block (flattenCues [cueA, cueB])).length = [cueA, cueB].length - 1 :=
  C1_segmentation_drops_final_cue [cueA, cueB] (by decide)

/-! ### State preservation lemmas -/

/-- The forced-deletion loop only rewrites block scores: every other field
of the document survives a successful run unchanged. -/
theorem mark_preserves :
    ∀ (l : List Int) (s t : Subtitle), mark_blocks_for_deletion s l = .ok t →
      t.file = s.file ∧ t.language = s.language ∧ t.ad_blocks = s.ad_blocks ∧
        t.warning_blocks = s.warning_blocks ∧ t.short_path = s.short_path := by
  intro l
  induction l with
  | nil =>
    intro s t h
    cases h
    exact ⟨rfl, rfl, rfl, rfl, rfl⟩
  | cons i rest ih =>
    intro s t h
    simp only [mark_blocks_for_deletion] at h
    split_ifs at h
    · exact ih s t h
    · obtain ⟨h1, h2, h3, h4, h5⟩ := ih _ t h
      exact ⟨h1, h2, h3, h4, h5⟩
    · obtain ⟨h1, h2, h3, h4, h5⟩ := ih _ t h
      exact ⟨h1, h2, h3, h4, h5⟩

/-- A failing forced-deletion run fails with the index error, never with
the content-empty exception. -/
theorem mark_no_content_error :
    ∀ (l : List Int) (s : Subtitle) (f : String),
      mark_blocks_for_deletion s l ≠ .error (.contentError f) := by
  intro l
  induction l with
  | nil => intro s f h; cases h
  | cons i rest ih =>
    intro s f h
    simp only [mark_blocks_for_deletion] at h
    split_ifs at h
    · exact ih s f h
    · exact ih _ f h
    · exact ih _ f h
    · cases h

/-- Language determination only rewrites the language tag. -/
theorem determine_language_state (env : Env) (cfg : Config) (s : Subtitle) :
    ∃ lang, determine_language env cfg s = { s with language := lang } := by
  simp only [determine_language]
  cases hd : cfg.default_language with
  | some d => exact ⟨d, rfl⟩
  | none =>
    cases hf : findLangTag env.is_language (suffixWindow (pathSuffixes s.file)) with
    | some tag => exact ⟨tag, rfl⟩
    | none =>
      by_cases h5 : (concatContent s).length < 500
      · rw [if_pos h5]
        exact ⟨"und", rfl⟩
      · rw [if_neg h5]
        by_cases h9 : (9 : ℚ) / 10 < (env.detect_top (concatContent s)).prob
        · rw [if_pos h9]
          exact ⟨(env.detect_top (concatContent s)).lang, rfl⟩
        · rw [if_neg h9]
          exact ⟨"und", rfl⟩

/-- A successfully constructed document starts with both mark sets empty,
carries the given file path, and carries the override language verbatim
when one was supplied. -/
theorem mkSubtitle_ok_state (env : Env) (cfg : Config) (args : Args) (f c : String)
    (s : Subtitle) (h : mkSubtitle env cfg args f c = .ok s) :
    s.file = f ∧ s.ad_blocks = ∅ ∧ s.warning_blocks = ∅ ∧
      (∀ l, args.language = some l → s.language = l) := by
  obtain ⟨argL, argD⟩ := args
  cases argL with
  | some l =>
    cases argD with
    | some dl =>
      simp only [mkSubtitle] at h
      split at h
      · obtain ⟨hf, hl, ha, hw, _⟩ := mark_preserves dl _ s h
        refine ⟨hf, ha, hw, ?_⟩
        intro l2 hl2
        cases Option.some.inj hl2
        exact hl
      · cases h
    | none =>
      simp only [mkSubtitle] at h
      split at h
      · cases h
        refine ⟨rfl, rfl, rfl, ?_⟩
        intro l2 hl2
        cases Option.some.inj hl2
        rfl
      · cases h
  | none =>
    cases argD with
    | some dl =>
      simp only [mkSubtitle] at h
      split at h
      · obtain ⟨lang, hlang⟩ := determine_language_state env cfg
          { file := f, blocks := parse_file_content c, ad_blocks := ∅, warning_blocks := ∅,
            language := "", short_path := shortPath cfg.relative_base f }
        rw [hlang] at h
        obtain ⟨hf, _, ha, hw, _⟩ := mark_preserves dl _ s h
        exact ⟨hf, ha, hw, fun l2 hl2 => by cases hl2⟩
      · cases h
    | none =>
      simp only [mkSubtitle] at h
      split at h
      · obtain ⟨lang, hlang⟩ := determine_language_state env cfg
          { file := f, blocks := parse_file_content c, ad_blocks := ∅, warning_blocks := ∅,
            language := "", short_path := shortPath cfg.relative_base f }
        rw [hlang] at h
        cases h
        exact ⟨rfl, rfl, rfl, fun l2 hl2 => by cases hl2⟩
      · cases h

/-! ### Reachability for the mark-set invariant -/

/-- One mutation step on a constructed document: a warn call, an ad call,
a successful forced-deletion call, a reindex, or a render (which reads but
does not change the state). -/
inductive SubtitleStep : Subtitle → Subtitle → Prop where
  | warn (s : Subtitle) (b : Nat) : SubtitleStep s (s.warn b)
  | ad (s : Subtitle) (b : Nat) : SubtitleStep s (s.ad b)
  | mark (s t : Subtitle) (l : List Int) (h : mark_blocks_for_deletion s l = .ok t) :
      SubtitleStep s t
  | reindex (s : Subtitle) : SubtitleStep s s.reindex
  | render (s : Subtitle) : SubtitleStep s s

/-- Every step preserves disjointness of the two mark sets. -/
theorem step_preserves_disjoint {s t : Subtitle} (hst : SubtitleStep s t)
    (h : Disjoint s.ad_blocks s.warning_blocks) :
    Disjoint t.ad_blocks t.warning_blocks := by
  cases hst with
  | warn b =>
    unfold Subtitle.warn
    by_cases hm : b ∈ s.ad_blocks
    · rw [if_pos hm]
      exact h
    · rw [if_neg hm]
      show Disjoint s.ad_blocks (insert b s.warning_blocks)
      rw [Finset.disjoint_insert_right]
      exact ⟨hm, h⟩
  | ad b =>
    show Disjoint (insert b s.ad_blocks) (s.warning_blocks.erase b)
    rw [Finset.disjoint_insert_left]
    exact ⟨Finset.not_mem_erase _ _, h.mono_right (Finset.erase_subset _ _)⟩
  | mark t l hm =>
    obtain ⟨_, _, ha, hw, _⟩ := mark_preserves l s t hm
    rw [ha, hw]
    exact h
  | reindex => exact h
  | render => exact h

/-- C2.  In every state reachable from a freshly constructed document by
any sequence of warn, ad, forced-deletion, reindex and render calls, the
ad set and the warning set are disjoint. -/
theorem C2_ad_warning_disjoint (env : Env) (cfg : Config) (args : Args) (f c : String)
    (s0 s : Subtitle) (h0 : mkSubtitle env cfg args f c = .ok s0)
    (hr : Relation.ReflTransGen SubtitleStep s0 s) :
    Disjoint s.ad_blocks s.warning_blocks := by
  obtain ⟨_, ha, hw, _⟩ := mkSubtitle_ok_state env cfg args f c s0 h0
  have hbase : Disjoint s0.ad_blocks s0.warning_blocks := by
    rw [ha, hw]
    exact Finset.disjoint_empty_left _
  induction hr with
  | refl => exact hbase
  | tail _ hstep ih => exact step_preserves_disjoint hstep ih

/-! ### Concrete fixtures for the witnesses -/

def exEnv : Env :=
  { is_language := fun t => t == "en"
    get_2letter_code := fun _ => none
    detect_top := fun _ => { lang := "en", prob := 0 } }

def exCfg : Config := { default_language := none, relative_base := "/media" }

def exArgs : Args := { language := some "en", destroy_list := none }

def exContent : String := "1\nA --> B\nHi\n2\nC --> D\nYo\n"

def exSub : Subtitle :=
  (mkSubtitle exEnv exCfg exArgs "film.srt" exContent).toOption.getD default

/-- Witness for C2: a concrete successful construction, with the empty
step sequence. -/
theorem C2_ad_warning_disjoint_witness :
    Disjoint exSub.ad_blocks exSub.warning_blocks :=
  C2_ad_warning_disjoint exEnv exCfg exArgs "film.srt" exContent exSub exSub
    (by rfl) Relation.ReflTransGen.refl

/-- C3.  Warn then ad leaves the block in the ad set only; ad then warn
leaves it in the ad set only; ad is idempotent; and a block already in the
ad set is never added to the warning set by warn. -/
theorem C3_ad_sticky (s : Subtitle) (b : Nat) :
    (b ∈ ((s.warn b).ad b).ad_blocks ∧ b ∉ ((s.warn b).ad b).warning_blocks) ∧
    (b ∈ ((s.ad b).warn b).ad_blocks ∧ b ∉ ((s.ad b).warn b).warning_blocks) ∧
    ((s.ad b).ad b = s.ad b) ∧
    (b ∈ s.ad_blocks → s.warn b = s) := by
  refine ⟨⟨?_, ?_⟩, ⟨?_, ?_⟩, ?_, ?_⟩
  · exact Finset.mem_insert_self _ _
  · exact Finset.not_mem_erase _ _
  · unfold Subtitle.warn
    rw [if_pos (show b ∈ (s.ad b).ad_blocks from Finset.mem_insert_self _ _)]
    exact Finset.mem_insert_self _ _
  · unfold Subtitle.warn
    rw [if_pos (show b ∈ (s.ad b).ad_blocks from Finset.mem_insert_self _ _)]
    exact Finset.not_mem_erase _ _
  · simp [Subtitle.ad, Finset.erase_idem, Finset.insert_idem]
  · intro hb
    unfold Subtitle.warn
    rw [if_pos hb]

def s3fix : Subtitle :=
  { file := "f", blocks := [], ad_blocks := {5}, warning_blocks := ∅,
    language := "x", short_path := "f" }

/-- Witness for C3 at a concrete document whose ad set holds the block. -/
theorem C3_ad_sticky_witness :
    (5 ∈ ((s3fix.warn 5).ad 5).ad_blocks ∧ 5 ∉ ((s3fix.warn 5).ad 5).warning_blocks) ∧
    (5 ∈ ((s3fix.ad 5).warn 5).ad_blocks ∧ 5 ∉ ((s3fix.ad 5).warn 5).warning_blocks) ∧
    ((s3fix.ad 5).ad 5 = s3fix.ad 5) ∧
    s3fix.warn 5 = s3fix :=
  ⟨(C3_ad_sticky s3fix 5).1, (C3_ad_sticky s3fix 5).2.1, (C3_ad_sticky s3fix 5).2.2.1,
    (C3_ad_sticky s3fix 5).2.2.2 (by decide)⟩

/-! ### Forced deletion: characterization lemmas -/

theorem setScoreAt_length : ∀ (bs : List SubBlock) (j : Nat),
    (setScoreAt bs j).length = bs.length := by
  intro bs
  induction bs with
  | nil => intro j; rfl
  | cons b bs ih =>
    intro j
    cases j with
    | zero => rfl
    | succ j => simpa [setScoreAt] using ih j

theorem setScoreAt_getD : ∀ (bs : List SubBlock) (j i : Nat), i < bs.length →
    (setScoreAt bs j).getD i default =
      (if i = j then { bs.getD i default with regex_matches := 3 }
       else bs.getD i default) := by
  intro bs
  induction bs with
  | nil => intro j i hi; simp at hi
  | cons b bs ih =>
    intro j i hi
    cases j with
    | zero =>
      cases i with
      | zero => rfl
      | succ i => simp [setScoreAt]
    | succ j =>
      cases i with
      | zero => simp [setScoreAt]
      | succ i =>
        have hi2 : i < bs.length := by simpa using hi
        simp only [setScoreAt, List.getD_cons_succ]
        rw [ih j i hi2]
        simp [Nat.succ_inj]

/-- The forced-deletion run over positive positions: it succeeds, touches
nothing but block scores, and gives the sentinel score exactly to the
blocks at the listed in-bounds positions. -/
theorem mark_pos_spec :
    ∀ (l : List Int) (s : Subtitle), (∀ p ∈ l, 1 ≤ p) →
      ∃ t, mark_blocks_for_deletion s l = .ok t ∧
        t.file = s.file ∧ t.language = s.language ∧ t.ad_blocks = s.ad_blocks ∧
        t.warning_blocks = s.warning_blocks ∧ t.blocks.length = s.blocks.length ∧
        ∀ i, i < s.blocks.length →
          t.blocks.getD i default =
            (if ((i : Int) + 1) ∈ l then { s.blocks.getD i default with regex_matches := 3 }
             else s.blocks.getD i default) := by
  intro l
  induction l with
  | nil =>
    intro s _
    exact ⟨s, rfl, rfl, rfl, rfl, rfl, rfl, fun i _ => by simp⟩
  | cons p rest ih =>
    intro s hpos
    have hp : 1 ≤ p := hpos p (List.mem_cons_self _ _)
    have hrest : ∀ q ∈ rest, 1 ≤ q := fun q hq => hpos q (List.mem_cons_of_mem _ hq)
    simp only [mark_blocks_for_deletion]
    by_cases h1 : (s.blocks.length : Int) ≤ p - 1
    · rw [if_pos h1]
      obtain ⟨t, ht, hf, hl, ha, hw, hlen, hget⟩ := ih s hrest
      refine ⟨t, ht, hf, hl, ha, hw, hlen, ?_⟩
      intro i hi
      rw [hget i hi]
      have hne : ¬ ((i : Int) + 1 = p) := by omega
      simp only [List.mem_cons, hne, false_or]
    · rw [if_neg h1, if_pos (show (0 : Int) ≤ p - 1 by omega)]
      obtain ⟨t, ht, hf, hl, ha, hw, hlen, hget⟩ :=
        ih { s with blocks := setScoreAt s.blocks (p - 1).toNat } hrest
      have hlen2 : t.blocks.length = s.blocks.length := by
        rw [hlen]
        exact setScoreAt_length _ _
      refine ⟨t, ht, hf, hl, ha, hw, hlen2, ?_⟩
      intro i hi
      have hi2 : i < (setScoreAt s.blocks (p - 1).toNat).length := by
        rw [setScoreAt_length]
        exact hi
      rw [hget i hi2]
      show (if ((i : Int) + 1) ∈ rest
          then { (setScoreAt s.blocks (p - 1).toNat).getD i default with regex_matches := 3 }
          else (setScoreAt s.blocks (p - 1).toNat).getD i default) = _
      rw [setScoreAt_getD s.blocks (p - 1).toNat i hi]
      by_cases hmem : ((i : Int) + 1) ∈ rest
      · rw [if_pos hmem, if_pos (List.mem_cons_of_mem _ hmem)]
        by_cases heq : i = (p - 1).toNat
        · rw [if_pos heq]
        · rw [if_neg heq]
      · rw [if_neg hmem]
        by_cases heq : i = (p - 1).toNat
        · rw [if_pos heq,
            if_pos (show ((i : Int) + 1) ∈ p :: rest from
              List.mem_cons.mpr (Or.inl (by omega)))]
        · rw [if_neg heq,
            if_neg (show ¬ ((i : Int) + 1) ∈ p :: rest by
              simp only [List.mem_cons]
              push_neg
              exact ⟨by omega, hmem⟩)]

/-- The forced-deletion run at one non-positive position: it wraps to the
end of the sequence when the length absorbs it, and raises the index error
otherwise. -/
theorem mark_neg_spec (s : Subtitle) (p : Int) (hp : p ≤ 0) :
    (1 ≤ p + (s.blocks.length : Int) →
      mark_blocks_for_deletion s [p]
        = .ok { s with blocks := setScoreAt s.blocks (p - 1 + (s.blocks.length : Int)).toNat }) ∧
    (p + (s.blocks.length : Int) < 1 → mark_blocks_for_deletion s [p] = .error .indexError) := by
  simp only [mark_blocks_for_deletion]
  rw [if_neg (show ¬ ((s.blocks.length : Int) ≤ p - 1) by omega),
    if_neg (show ¬ ((0 : Int) ≤ p - 1) by omega)]
  constructor
  · intro h1
    rw [if_pos (show (0 : Int) ≤ p - 1 + (s.blocks.length : Int) by omega)]
  · intro h2
    rw [if_neg (show ¬ ((0 : Int) ≤ p - 1 + (s.blocks.length : Int)) by omega)]

def mkBlk (i : Nat) (c : String) : SubBlock :=
  { current_index := i, times := "T", content := c, regex_matches := 0 }

def ex3 : Subtitle :=
  { file := "f", blocks := [mkBlk 1 "a", mkBlk 2 "b", mkBlk 3 "c"], ad_blocks := ∅,
    warning_blocks := ∅, language := "en", short_path := "f" }

/-- C4 counterexample.  On a three-block document, position 0 lies outside
the range 1..3, yet the forced-deletion call changes the document: the
last block receives the sentinel score, because the zero-based index -1
wraps to the end of the list. -/
theorem C4_counterexample_position_zero :
    ex3.blocks.map (fun b => b.regex_matches) = [0, 0, 0] ∧
    mark_blocks_for_deletion ex3 [0] ≠ .ok ex3 ∧
    (mark_blocks_for_deletion ex3 [0]).map (fun t => t.blocks.map (fun b => b.regex_matches))
      = .ok [0, 0, 3] := by
  refine ⟨rfl, ?_, rfl⟩
  intro h
  have h2 := congrArg
    (fun r => Except.map (fun t => t.blocks.map (fun b => b.regex_matches)) r) h
  exact absurd (Except.ok.inj h2) (by decide)

/-- C4 amended.  For every document and every list of positions that are
all at least 1, forced deletion succeeds: each in-bounds position (1..N)
forces that block score to the sentinel, every position above N changes
nothing, and blocks, both mark sets, file and language are otherwise
untouched.  A position at most 0 is however not ignored: its zero-based
index is negative and follows the list indexing of the host language,
marking the block at one-based position N+p when N+p is at least 1 and
raising the index error otherwise. -/
theorem C4_mark_for_deletion_amended :
    (∀ (s : Subtitle) (l : List Int), (∀ p ∈ l, 1 ≤ p) →
      ∃ t, mark_blocks_for_deletion s l = .ok t ∧
        t.file = s.file ∧ t.language = s.language ∧ t.ad_blocks = s.ad_blocks ∧
        t.warning_blocks = s.warning_blocks ∧ t.blocks.length = s.blocks.length ∧
        ∀ i, i < s.blocks.length →
          t.blocks.getD i default =
            (if ((i : Int) + 1) ∈ l then { s.blocks.getD i default with regex_matches := 3 }
             else s.blocks.getD i default)) ∧
    (∀ (s : Subtitle) (p : Int), p ≤ 0 →
      (1 ≤ p + (s.blocks.length : Int) →
        mark_blocks_for_deletion s [p]
          = .ok { s with blocks := setScoreAt s.blocks (p - 1 + (s.blocks.length : Int)).toNat }) ∧
      (p + (s.blocks.length : Int) < 1 →
        mark_blocks_for_deletion s [p] = .error .indexError)) :=
  ⟨fun s l => mark_pos_spec l s, mark_neg_spec⟩

/-- Witness for C4 amended: positions 2 and 99 on the three-block
document, and the wrapped position -1. -/
theorem C4_mark_for_deletion_amended_witness :
    (∃ t, mark_blocks_for_deletion ex3 [2, 99] = .ok t ∧
      t.file = ex3.file ∧ t.language = ex3.language ∧ t.ad_blocks = ex3.ad_blocks ∧
      t.warning_blocks = ex3.warning_blocks ∧ t.blocks.length = ex3.blocks.length ∧
      ∀ i, i < ex3.blocks.length →
        t.blocks.getD i default =
          (if ((i : Int) + 1) ∈ [(2 : Int), 99] then
            { ex3.blocks.getD i default with regex_matches := 3 }
           else ex3.blocks.getD i default)) ∧
    mark_blocks_for_deletion ex3 [-1]
      = .ok { ex3 with blocks := setScoreAt ex3.blocks ((-1) - 1 + (ex3.blocks.length : Int)).toNat } :=
  ⟨C4_mark_for_deletion_amended.1 ex3 [2, 99] (by decide),
    (C4_mark_for_deletion_amended.2 ex3 (-1) (by decide)).1 (by decide)⟩

/-- C5.  A file whose segmentation yields no block with nonempty content
fails construction with the content-empty exception carrying the file
path; when some block has nonempty content, construction never raises that
exception. -/
theorem C5_empty_content_error (env : Env) (cfg : Config) (args : Args) (f c : String) :
    ((∀ b ∈ parse_file_content c, b.content = "") →
      mkSubtitle env cfg args f c = .error (.contentError f)) ∧
    ((∃ b ∈ parse_file_content c, b.content ≠ "") →
      ∀ f2, mkSubtitle env cfg args f c ≠ .error (.contentError f2)) := by
  constructor
  · intro hall
    have hneg : ¬ (subtitleBool
        { file := f, blocks := parse_file_content c, ad_blocks := ∅, warning_blocks := ∅,
          language := "", short_path := shortPath cfg.relative_base f } = true) := by
      simp only [subtitleBool, List.any_eq_true]
      push_neg
      intro b hb
      simp [hall b hb]
    simp only [mkSubtitle]
    rw [if_neg hneg]
  · rintro ⟨b, hb, hbc⟩ f2 h
    have hpos : subtitleBool
        { file := f, blocks := parse_file_content c, ad_blocks := ∅, warning_blocks := ∅,
          language := "", short_path := shortPath cfg.relative_base f } = true := by
      simp only [subtitleBool, List.any_eq_true]
      exact ⟨b, hb, by simp [hbc]⟩
    simp only [mkSubtitle] at h
    rw [if_pos hpos] at h
    split at h
    · exact mark_no_content_error _ _ f2 h
    · cases h

/-- Witness for C5: a one-line file fails with the content-empty
exception; the two-cue file does not. -/
theorem C5_empty_content_error_witness :
    mkSubtitle exEnv exCfg exArgs "f" "x" = .error (.contentError "f") ∧
    mkSubtitle exEnv exCfg exArgs "film.srt" exContent ≠ .error (.contentError "film.srt") :=
  ⟨(C5_empty_content_error exEnv exCfg exArgs "f" "x").1 (by decide),
    (C5_empty_content_error exEnv exCfg exArgs "film.srt" exContent).2 (by decide) "film.srt"⟩

/-- C6.  A supplied language override is stored verbatim, and the whole
construction is independent of the language registry, the statistical
detector and the configured default: neither is consulted to determine
the language, for every file name and content. -/
theorem C6_override_wins (env env2 : Env) (d d2 : Option String) (base : String)
    (dl : Option (List Int)) (l f c : String) :
    (∀ s, mkSubtitle env ⟨d, base⟩ ⟨some l, dl⟩ f c = .ok s → s.language = l) ∧
    mkSubtitle env ⟨d, base⟩ ⟨some l, dl⟩ f c = mkSubtitle env2 ⟨d2, base⟩ ⟨some l, dl⟩ f c := by
  constructor
  · intro s hs
    exact (mkSubtitle_ok_state env ⟨d, base⟩ ⟨some l, dl⟩ f c s hs).2.2.2 l rfl
  · rfl

def exEnv2 : Env :=
  { is_language := fun _ => false
    get_2letter_code := fun t => some t
    detect_top := fun _ => { lang := "sv", prob := 1 } }

/-- Witness for C6: the concrete construction stores the override, and the
result is unchanged under a different registry, detector and default. -/
theorem C6_override_wins_witness :
    exSub.language = "en" ∧
    mkSubtitle exEnv ⟨none, "/media"⟩ ⟨some "en", none⟩ "film.srt" exContent
      = mkSubtitle exEnv2 ⟨some "xx", "/media"⟩ ⟨some "en", none⟩ "film.srt" exContent :=
  ⟨(C6_override_wins exEnv exEnv2 none (some "xx") "/media" none "en" "film.srt" exContent).1
      exSub (by rfl),
    (C6_override_wins exEnv exEnv2 none (some "xx") "/media" none "en" "film.srt" exContent).2⟩

/-- C7.  Validation returns true for the unknown tag, for a tag the
registry cannot map, and for content shorter than 500 characters;
otherwise it returns true exactly when the top detector guess matches the
two-letter code with probability above 0.8.  The source routine reads but
never assigns the stored language tag, which is why it is embedded as a
pure predicate. -/
theorem C7_language_validation (env : Env) (s : Subtitle) :
    (s.language = "und" → language_is_correct env s = true) ∧
    (env.get_2letter_code s.language = none → language_is_correct env s = true) ∧
    ((concatContent s).length < 500 → language_is_correct env s = true) ∧
    (∀ c2, s.language ≠ "und" → env.get_2letter_code s.language = some c2 →
      500 ≤ (concatContent s).length →
      (language_is_correct env s = true ↔
        ((env.detect_top (concatContent s)).lang = c2 ∧
          (8 : ℚ) / 10 < (env.detect_top (concatContent s)).prob))) := by
  refine ⟨?_, ?_, ?_, ?_⟩
  · intro h
    simp [language_is_correct, h]
  · intro h
    simp only [language_is_correct]
    by_cases hu : s.language = "und"
    · rw [if_pos hu]
    · rw [if_neg hu, h]
  · intro h
    simp only [language_is_correct]
    by_cases hu : s.language = "und"
    · rw [if_pos hu]
    · rw [if_neg hu]
      cases hm : env.get_2letter_code s.language with
      | none => rfl
      | some c2 =>
        show (if (concatContent s).length < 500 then true else _) = true
        rw [if_pos h]
  · intro c2 hu hm h5
    simp only [language_is_correct]
    rw [if_neg hu, hm]
    show (if (concatContent s).length < 500 then true else _) = true ↔ _
    rw [if_neg (by omega : ¬ ((concatContent s).length < 500))]
    simp [Bool.and_eq_true, beq_iff_eq, decide_eq_true_eq]

def longContent : String := String.mk (List.replicate 500 'a')

def envC7 : Env :=
  { is_language := fun _ => false
    get_2letter_code := fun t => if t == "english" then some "en" else none
    detect_top := fun _ => { lang := "en", prob := 9 / 10 } }

def sC7 : Subtitle :=
  { file := "f"
    blocks := [{ current_index := 1, times := "T", content := longContent, regex_matches := 0 }]
    ad_blocks := ∅, warning_blocks := ∅, language := "english", short_path := "f" }

set_option maxRecDepth 8000 in
/-- Witness for C7 covering all four branches at concrete inputs. -/
theorem C7_language_validation_witness :
    language_is_correct envC7 { sC7 with language := "und" } = true ∧
    language_is_correct envC7 { sC7 with language := "xx" } = true ∧
    language_is_correct envC7 { sC7 with blocks := [mkBlk 1 "hi"] } = true ∧
    language_is_correct envC7 sC7 = true :=
  ⟨(C7_language_validation envC7 _).1 rfl,
    (C7_language_validation envC7 _).2.1 rfl,
    (C7_language_validation envC7 _).2.2.1 (by decide),
    ((C7_language_validation envC7 sC7).2.2.2 "en" (by decide) rfl (by decide)).mpr
      ⟨rfl, by norm_num [envC7]⟩⟩

theorem reindexFrom_length : ∀ (bs : List SubBlock) (k : Nat),
    (reindexFrom k bs).length = bs.length := by
  intro bs
  induction bs with
  | nil => intro k; rfl
  | cons b bs ih => intro k; simpa [reindexFrom] using ih (k + 1)

theorem reindexFrom_getD : ∀ (bs : List SubBlock) (k i : Nat), i < bs.length →
    (reindexFrom k bs).getD i default =
      { bs.getD i default with current_index := k + i } := by
  intro bs
  induction bs with
  | nil => intro k i hi; simp at hi
  | cons b bs ih =>
    intro k i hi
    cases i with
    | zero => simp [reindexFrom]
    | succ i =>
      have hi2 : i < bs.length := by simpa using hi
      simp only [reindexFrom, List.getD_cons_succ]
      rw [ih (k + 1) i hi2, show k + 1 + i = k + (i + 1) by omega]

/-- C8.  Reindexing assigns the contiguous one-based indices 1..N to the
blocks in their sequence order, changing nothing else about any block, and
rendering twice after a reindex with no intervening mutation yields the
same output string (rendering is a pure function of the state). -/
theorem C8_reindex_render (s : Subtitle) :
    s.reindex.blocks.length = s.blocks.length ∧
    (∀ i, i < s.blocks.length →
      s.reindex.blocks.getD i default =
        { s.blocks.getD i default with current_index := i + 1 }) ∧
    s.reindex.to_content = s.reindex.to_content := by
  refine ⟨reindexFrom_length s.blocks 1, ?_, rfl⟩
  intro i hi
  have h := reindexFrom_getD s.blocks 1 i hi
  rw [Nat.add_comm 1 i] at h
  exact h

/-- Witness for C8 on the three-block document at index 1. -/
theorem C8_reindex_render_witness :
    ex3.reindex.blocks.length = ex3.blocks.length ∧
    ex3.reindex.blocks.getD 1 default
      = { ex3.blocks.getD 1 default with current_index := 2 } ∧
    ex3.reindex.to_content = ex3.reindex.to_content :=
  ⟨(C8_reindex_render ex3).1, (C8_reindex_render ex3).2.1 1 (by decide),
    (C8_reindex_render ex3).2.2⟩

/-- C9.  With no override and no default, a filename suffix token that the
registry recognizes becomes the language, and the statistical detector is
never consulted (the result is independent of it); in particular the file
movie.en.srt with a registry recognizing en resolves to en. -/
theorem C9_suffix_language :
    (∀ (env : Env) (cfg : Config) (s : Subtitle) (t : String), cfg.default_language = none →
      findLangTag env.is_language (suffixWindow (pathSuffixes s.file)) = some t →
        (determine_language env cfg s).language = t ∧
        ∀ det, determine_language env cfg s
          = determine_language { env with detect_top := det } cfg s) ∧
    (∀ (g2 : String → Option String) (det : String → DetectedLanguage) (cfg : Config)
      (s : Subtitle), cfg.default_language = none → s.file = "movie.en.srt" →
      (determine_language ⟨fun x => x == "en", g2, det⟩ cfg s).language = "en") := by
  constructor
  · intro env cfg s t hd hf
    constructor
    · simp only [determine_language, hd, hf]
    · intro det
      simp only [determine_language, hd]
      rw [show ({ env with detect_top := det } : Env).is_language = env.is_language from rfl, hf]
  · intro g2 det cfg s hd hfile
    have hf : findLangTag (fun x => x == "en")
        (suffixWindow (pathSuffixes s.file)) = some "en" := by
      rw [hfile]
      rfl
    simp only [determine_language, hd]
    rw [hf]

def s9 : Subtitle :=
  { file := "movie.en.srt", blocks := [], ad_blocks := ∅, warning_blocks := ∅,
    language := "", short_path := "movie.en.srt" }

def env9 : Env :=
  { is_language := fun x => x == "en"
    get_2letter_code := fun _ => none
    detect_top := fun _ => { lang := "sv", prob := 1 } }

/-- Witness for C9 on the file movie.en.srt. -/
theorem C9_suffix_language_witness :
    ((determine_language env9 exCfg s9).language = "en" ∧
      ∀ det, determine_language env9 exCfg s9
        = determine_language { env9 with detect_top := det } exCfg s9) ∧
    (determine_language ⟨fun x => x == "en", fun _ => none,
        fun _ => { lang := "sv", prob := 1 }⟩ exCfg s9).language = "en" :=
  ⟨C9_suffix_language.1 env9 exCfg s9 "en" rfl rfl,
    C9_suffix_language.2 (fun _ => none) (fun _ => { lang := "sv", prob := 1 }) exCfg s9 rfl rfl⟩

/-- C10.  An input whose normalized text splits into fewer than three
lines yields no block at all (the scan from index 2 never runs), so
construction always fails with the content-empty exception, even when the
lines are nonempty text. -/
theorem C10_short_input_empty (env : Env) (cfg : Config) (args : Args) (f c : String)
    (h : (splitLinesStr (normalizeContent c)).length < 3) :
    parse_file_content c = [] ∧ mkSubtitle env cfg args f c = .error (.contentError f) := by
  have hp : parse_file_content c = [] := breakup_block_short _ h
  refine ⟨hp, ?_⟩
  have hneg : ¬ (subtitleBool
      { file := f, blocks := parse_file_content c, ad_blocks := ∅, warning_blocks := ∅,
        language := "", short_path := shortPath cfg.relative_base f } = true) := by
    simp [subtitleBool, hp]
  simp only [mkSubtitle]
  rw [if_neg hneg]

/-- Witness for C10 on a nonempty two-line input. -/
theorem C10_short_input_empty_witness :
    parse_file_content "Hello\nWorld" = [] ∧
    mkSubtitle exEnv exCfg exArgs "f" "Hello\nWorld" = .error (.contentError "f") :=
  C10_short_input_empty exEnv exCfg exArgs "f" "Hello\nWorld" (by decide)

end Subcleaner
